import Mathlib

/-!
Verification development for the ASBEL repository.

Part one embeds the documentation-site frontend that the repository
actually contains: the section-name mapping and the loader of
DocSectionPage.vue, and the route table of the router module.

Part two models the Ownership and Refinement Compilation Pipeline.  The
repository contains no compiler implementation, only the language
documents, so every definition of part two is modelled from the spec
and marked as such.
-/

namespace Asbel

/- ## JavaScript string primitives used by the frontend embedding -/

/-- JS string split on a single separator character, over the character
list of the string: splitting the empty string gives one empty word, and
adjacent separators produce empty words, exactly as in JavaScript. -/
def splitOnChar (sep : Char) : List Char → List (List Char)
  | [] => [[]]
  | c :: cs =>
    let rest := splitOnChar sep cs
    if c = sep then [] :: rest
    else
      match rest with
      | [] => [[c]]
      | w :: ws => (c :: w) :: ws

/-- JS split of a string on a one-character separator. -/
def jsSplit (s : String) (sep : Char) : List String :=
  (splitOnChar sep s.data).map String.mk

/-- JS charAt: the character at index `i` as a one-character string, or
the empty string when the index is out of range. -/
def jsCharAt (s : String) (i : Nat) : String :=
  match s.data.drop i with
  | [] => ""
  | c :: _ => String.mk [c]

/-- JS toUpperCase, on the ASCII component identifiers the site uses. -/
def jsToUpperCase (s : String) : String :=
  String.mk (s.data.map Char.toUpper)

/-- JS slice from index `i` to the end of the string. -/
def jsSlice (s : String) (i : Nat) : String :=
  String.mk (s.data.drop i)

/-- JS truthiness of a nullable string: null, undefined and the empty
string are falsy; `none` models null or undefined. -/
def truthy : Option String → Bool
  | none => false
  | some s => !(s == "")

/-- JS logical-or on nullable strings: the first operand when truthy,
otherwise the second. -/
def jsOr (a b : Option String) : Option String :=
  if truthy a then a else b

/-- JS template interpolation of a possibly null value. -/
def jsInterp : Option String → String
  | none => "null"
  | some s => s

/- ## DocSectionPage.vue -/

/-- The arrow function applied to each word inside getComponentName in
DocSectionPage.vue: charAt 0, upper-cased, concatenated with slice 1. -/
def capitalizeWord (w : String) : String :=
  jsToUpperCase (jsCharAt w 0) ++ jsSlice w 1

/-- getComponentName from DocSectionPage.vue: a falsy argument maps to
null; otherwise split the section path on the hyphen, capitalize each
word, join, and append the suffix Doc. -/
def getComponentName (sectionPath : Option String) : Option String :=
  match sectionPath with
  | none => none
  | some s =>
    if s == "" then none
    else
      let componentName := String.join ((jsSplit s '-').map capitalizeWord)
      some (componentName ++ "Doc")

/-- The word transformation as the claim words it: the first character
upper-cased, the rest of the word unchanged. -/
def claimCapitalize (w : String) : String :=
  match w.data with
  | [] => ""
  | c :: cs => String.mk (c.toUpper :: cs)

/-- The section-name mapping as the claim words it: for a null or empty
section null, otherwise the concatenation of the hyphen-separated words,
each with its first character upper-cased and the rest unchanged,
followed by the suffix Doc. -/
def claimComponentName (sectionPath : Option String) : Option String :=
  match sectionPath with
  | none => none
  | some s =>
    if s == "" then none
    else some (String.join ((jsSplit s '-').map claimCapitalize) ++ "Doc")

/-- The dynamic-import environment: for a module specifier, `some c`
when the awaited import resolves with default export `c`, and `none`
when the import rejects.  A component is identified by a name string. -/
abbrev ImportEnv := String → Option String

/-- loadDocComponent from DocSectionPage.vue.  The result is ok `c` when
the function assigns component `c` to currentDocComponent, and an error
when the uncaught fallback import rejects, in which case the exception
propagates and currentDocComponent is not assigned. -/
def loadDocComponent (env : ImportEnv) (routeSection propsSection : Option String) :
    Except Unit String :=
  let sectionPath := jsOr routeSection propsSection
  if truthy sectionPath then
    let componentName := jsInterp (getComponentName sectionPath)
    match env ("./content/" ++ componentName ++ ".vue") with
    | some c => .ok c
    | none =>
      match env "../../NotFoundPage.vue" with
      | some fallback => .ok fallback
      | none => .error ()
  else
    match env "./content/IntroductionDoc.vue" with
    | some c => .ok c
    | none =>
      match env "../../NotFoundPage.vue" with
      | some fallback => .ok fallback
      | none => .error ()

/-- The component the claim says gets assigned, stated under the
assumption that the NotFoundPage fallback module `nf` loads: the
matching content component when its import resolves, otherwise the
fallback; the IntroductionDoc default when no section is given,
otherwise the fallback. -/
def claimedDocComponent (env : ImportEnv) (routeSection propsSection : Option String)
    (nf : String) : String :=
  let sectionPath := jsOr routeSection propsSection
  if truthy sectionPath then
    (env ("./content/" ++ jsInterp (getComponentName sectionPath) ++ ".vue")).getD nf
  else
    (env "./content/IntroductionDoc.vue").getD nf

/-- An import environment in which every import rejects except the
NotFoundPage fallback module. -/
def fallbackOnlyEnv : ImportEnv :=
  fun spec => if spec == "../../NotFoundPage.vue" then some "NotFoundPage" else none

/-- An import environment in which every import rejects. -/
def brokenEnv : ImportEnv := fun _ => none

/- ## The router module -/

/-- A path pattern of the route table: a static path, the section
parameter pattern under the documentation path, or the catch-all
pattern. -/
inductive PathPattern where
  | fixed (path : String)
  | docSection
  | catchAll
  deriving DecidableEq, Repr

/-- One record of the route table. -/
structure RouteRecord where
  pattern : PathPattern
  name : String
  component : String
  deriving DecidableEq, Repr

/-- The route table of the router module, in declaration order. -/
def routes : List RouteRecord :=
  [ ⟨.fixed "/", "Home", "HomePage"⟩,
    ⟨.fixed "/getting-started", "GettingStarted", "GettingStartedPage"⟩,
    ⟨.fixed "/documentation", "Documentation", "DocumentationPage"⟩,
    ⟨.docSection, "DocSection", "DocSectionPage"⟩,
    ⟨.fixed "/cli-reference", "CliReference", "CliReferencePage"⟩,
    ⟨.fixed "/roadmap", "Roadmap", "RoadmapPage"⟩,
    ⟨.catchAll, "NotFound", "NotFoundPage"⟩ ]

/-- Path matching restricted to the pattern forms the table uses: a
static path matches exactly, the section pattern matches a path that
splits as root, documentation, and one non-empty segment, and the
catch-all pattern matches every path. -/
def matchesPath (pat : PathPattern) (p : String) : Bool :=
  match pat with
  | .fixed s => p == s
  | .docSection =>
    match jsSplit p '/' with
    | ["", "documentation", seg] => !(seg == "")
    | _ => false
  | .catchAll => true

/-- Route resolution: the first record of the table whose pattern
matches the navigated path. -/
def resolve (p : String) : Option RouteRecord :=
  routes.find? (fun r => matchesPath r.pattern p)

/-- The catch-all record of the table. -/
def notFoundRoute : RouteRecord := ⟨.catchAll, "NotFound", "NotFoundPage"⟩

/- ## Ownership and Borrow Engine (modelled from the spec) -/

/-- Modelled from the spec: the per-binding state machine of the
Ownership and Borrow Engine, whose implementation is missing from the
repository.  The states are Uninit, Owned, BorrowedShared with a live
count, BorrowedMutable, Moved and Released; the flag on `moved` records
whether the move was a capture into a spawned task, which selects
between the UseAfterMove and CapturedAfterMove diagnostics. -/
inductive OwnershipMode where
  | uninit
  | owned
  | borrowedShared (n : Nat)
  | borrowedMutable
  | moved (intoTask : Bool)
  | released
  deriving DecidableEq, Repr

/-- Modelled from the spec: the fatal diagnostic kinds of the engine;
`illFormed` is a modelling device covering program shapes outside the
taxonomy of the spec, namely use of an uninitialized binding, unbalanced
borrow ends, double initialization and release of a non-owned binding. -/
inductive DiagKind where
  | useAfterMove
  | capturedAfterMove
  | aliasConflict
  | illFormed
  deriving DecidableEq, Repr

/-- Modelled from the spec: the statement forms the forward dataflow
pass distinguishes: initialization, a move between bindings, a read
access, the start and end of a shared or mutable borrow, a spawn with
the free variables of the task body, and a scope-exit release. -/
inductive Stmt where
  | init (x : String)
  | move (dst src : String)
  | read (x : String)
  | beginShared (x : String)
  | endShared (x : String)
  | beginMut (x : String)
  | endMut (x : String)
  | spawnTask (captures : List String)
  | release (x : String)
  deriving DecidableEq, Repr

/-- The per-binding ownership state at one program point. -/
abbrev VarEnv := String → OwnershipMode

/-- Pointwise update of a variable environment. -/
def setVar (env : VarEnv) (x : String) (m : OwnershipMode) : VarEnv :=
  fun y => if y = x then m else env y

/-- Modelled from the spec: every free variable referenced in a task
body must be Owned at the spawn site and is forced to Moved into the
private scope of the task; a borrowed capture is an alias conflict, and
a capture of an already dead binding reports the move-flavoured
diagnostic. -/
def spawnCheck (env : VarEnv) : List String → Except DiagKind VarEnv
  | [] => .ok env
  | x :: rest =>
    match env x with
    | .owned => spawnCheck (setVar env x (.moved true)) rest
    | .borrowedShared _ => .error .aliasConflict
    | .borrowedMutable => .error .aliasConflict
    | .moved true => .error .capturedAfterMove
    | .moved false => .error .useAfterMove
    | .released => .error .useAfterMove
    | .uninit => .error .illFormed

/-- Modelled from the spec: the transfer function of the forward
dataflow pass.  Initialization takes Uninit to Owned; a move requires an
Owned source and an Uninit destination; a read is permitted through an
Owned or shared-borrowed binding; borrows follow the exclusivity rules,
with any number of stacked shared borrows but a fully exclusive mutable
borrow; use of a Moved or Released binding is fatal, with the
CapturedAfterMove flavour for task captures. -/
def step (env : VarEnv) : Stmt → Except DiagKind VarEnv
  | .init x =>
    match env x with
    | .uninit => .ok (setVar env x .owned)
    | _ => .error .illFormed
  | .move dst src =>
    match env src with
    | .owned =>
      match env dst with
      | .uninit => .ok (setVar (setVar env src (.moved false)) dst .owned)
      | _ => .error .illFormed
    | .borrowedShared _ => .error .aliasConflict
    | .borrowedMutable => .error .aliasConflict
    | .moved true => .error .capturedAfterMove
    | .moved false => .error .useAfterMove
    | .released => .error .useAfterMove
    | .uninit => .error .illFormed
  | .read x =>
    match env x with
    | .owned => .ok env
    | .borrowedShared _ => .ok env
    | .borrowedMutable => .error .aliasConflict
    | .moved true => .error .capturedAfterMove
    | .moved false => .error .useAfterMove
    | .released => .error .useAfterMove
    | .uninit => .error .illFormed
  | .beginShared x =>
    match env x with
    | .owned => .ok (setVar env x (.borrowedShared 1))
    | .borrowedShared n => .ok (setVar env x (.borrowedShared (n + 1)))
    | .borrowedMutable => .error .aliasConflict
    | .moved true => .error .capturedAfterMove
    | .moved false => .error .useAfterMove
    | .released => .error .useAfterMove
    | .uninit => .error .illFormed
  | .endShared x =>
    match env x with
    | .borrowedShared 1 => .ok (setVar env x .owned)
    | .borrowedShared (n + 2) => .ok (setVar env x (.borrowedShared (n + 1)))
    | _ => .error .illFormed
  | .beginMut x =>
    match env x with
    | .owned => .ok (setVar env x .borrowedMutable)
    | .borrowedShared _ => .error .aliasConflict
    | .borrowedMutable => .error .aliasConflict
    | .moved true => .error .capturedAfterMove
    | .moved false => .error .useAfterMove
    | .released => .error .useAfterMove
    | .uninit => .error .illFormed
  | .endMut x =>
    match env x with
    | .borrowedMutable => .ok (setVar env x .owned)
    | _ => .error .illFormed
  | .spawnTask caps => spawnCheck env caps
  | .release x =>
    match env x with
    | .owned => .ok (setVar env x .released)
    | _ => .error .illFormed

/-- The dataflow pass over a statement list, from a given environment;
the first fatal diagnostic stops the analysis of the function body. -/
def analyzeFrom (env : VarEnv) : List Stmt → Except DiagKind VarEnv
  | [] => .ok env
  | s :: rest =>
    match step env s with
    | .ok env2 => analyzeFrom env2 rest
    | .error d => .error d

/-- At function entry no binding is initialized. -/
def initialEnv : VarEnv := fun _ => .uninit

/-- Modelled from the spec: the per-function analysis of the Ownership
and Borrow Engine over one function body. -/
def analyze (prog : List Stmt) : Except DiagKind VarEnv :=
  analyzeFrom initialEnv prog

/-- Statements that read the value of binding `x`: a read access, a move
out of it, the start of a borrow of it, or a spawn capturing it. -/
def readsVar (s : Stmt) (x : String) : Bool :=
  match s with
  | .read y => y == x
  | .move _ src => src == x
  | .beginShared y => y == x
  | .beginMut y => y == x
  | .spawnTask caps => caps.contains x
  | _ => false

/-- Statements that access binding `x` through its own name: a read, a
move out of it, or the start of a borrow of it. -/
def directAccess (s : Stmt) (x : String) : Bool :=
  match s with
  | .read y => y == x
  | .move _ src => src == x
  | .beginShared y => y == x
  | .beginMut y => y == x
  | _ => false

/-- A binding state through which no access is permitted: Moved, with
either flavour, or Released. -/
def isDead (m : OwnershipMode) : Bool :=
  match m with
  | .moved _ => true
  | .released => true
  | _ => false

/-- The move-then-use program of the first claim: initialize a binding,
move it away, then read it. -/
def c1Prog : List Stmt := [.init "a", .move "b" "a", .read "a"]

/-- The environment after the first two statements of `c1Prog`. -/
def c1EnvMid : VarEnv :=
  setVar (setVar (setVar initialEnv "a" .owned) "a" (.moved false)) "b" .owned

/-- The overlapping-borrow program of the exclusivity claim: initialize
a binding, take a mutable borrow, then read it while the borrow lives. -/
def c4Prog : List Stmt := [.init "a", .beginMut "a", .read "a"]

/-- The environment after the first two statements of `c4Prog`. -/
def c4EnvMid : VarEnv :=
  setVar (setVar initialEnv "a" .owned) "a" .borrowedMutable

/-- The prefix of the spawn-capture programs: one initialized binding. -/
def c3Pre : List Stmt := [.init "a"]

/-- The environment after `c3Pre`. -/
def c3EnvOwned : VarEnv := setVar initialEnv "a" .owned

/-- The environment after additionally spawning a task capturing the
binding. -/
def c3EnvMoved : VarEnv := setVar c3EnvOwned "a" (.moved true)

/- ## Scope lowering and release obligations (modelled from the spec) -/

/-- Modelled from the spec: the four kinds of control-flow exit from a
scope: normal fall-through, early return, break from an enclosing loop,
and error propagation through the question-mark operator. -/
inductive ExitKind where
  | normal
  | earlyReturn
  | breakLoop
  | errorProp
  deriving DecidableEq, Repr

/-- Modelled from the spec: one binding declared in a scope body, with
the flag marking a resource-bound type, that is a type carrying an
auto-close, auto-release or timeout annotation. -/
structure ScopeBinding where
  name : String
  resourceBound : Bool
  deriving DecidableEq, Repr

/-- Modelled from the spec: the body of a scope as the lowering pass
sees it: declarations, ordinary work statements, and explicit exits. -/
inductive ScopeStmt where
  | decl (b : ScopeBinding)
  | work
  | exitVia (e : ExitKind)
  deriving DecidableEq, Repr

/-- Modelled from the spec: the explicitly managed intermediate form
produced by the Lowering pass: declarations, ordinary statements,
release calls, and exit instructions. -/
inductive IROp where
  | declare (name : String)
  | stmt
  | releaseCall (name : String)
  | exitOp (e : ExitKind)
  deriving DecidableEq, Repr

/-- Modelled from the spec: the pending release obligations for the
resource-bound bindings declared so far, emitted in reverse declaration
order. -/
def emitReleases (acc : List String) : List IROp :=
  acc.reverse.map IROp.releaseCall

/-- Modelled from the spec: lowering of a scope body.  The accumulator
holds the resource-bound bindings declared so far in declaration order;
every explicit exit and the normal fall-through at the end of the body
receive the pending releases exactly once, and statements after an
explicit exit are unreachable and dropped. -/
def lowerScope : List ScopeStmt → List String → List IROp
  | [], acc => emitReleases acc ++ [IROp.exitOp .normal]
  | .decl b :: rest, acc =>
    IROp.declare b.name ::
      lowerScope rest (if b.resourceBound then acc ++ [b.name] else acc)
  | .work :: rest, acc => IROp.stmt :: lowerScope rest acc
  | .exitVia e :: _, acc => emitReleases acc ++ [IROp.exitOp e]

/-- The names released by an emitted instruction sequence, in order. -/
def releasesOf (ops : List IROp) : List String :=
  ops.filterMap fun op =>
    match op with
    | IROp.releaseCall n => some n
    | _ => none

/-- The resource-bound bindings declared by a scope body, in declaration
order. -/
def rbNames (body : List ScopeStmt) : List String :=
  body.filterMap fun s =>
    match s with
    | .decl b => if b.resourceBound then some b.name else none
    | _ => none

/-- A scope body with no explicit exit statement. -/
def noExplicitExit (body : List ScopeStmt) : Bool :=
  body.all fun s =>
    match s with
    | .exitVia _ => false
    | _ => true

/-- The scope body of the release-completeness example: two
resource-bound bindings declared in order. -/
def c2Body : List ScopeStmt :=
  [.decl ⟨"a", true⟩, .work, .decl ⟨"b", true⟩]

/- ## Refinement Resolver intervals (modelled from the spec) -/

/-- Modelled from the spec: a closed integer interval, the value range
attached to a refined integer type. -/
structure ValueRange where
  lo : Int
  hi : Int
  deriving DecidableEq, Repr

/-- Modelled from the spec: interval arithmetic for addition over known
operand ranges. -/
def rangeAdd (a b : ValueRange) : ValueRange :=
  ⟨a.lo + b.lo, a.hi + b.hi⟩

/-- Containment of one closed interval in another. -/
def rangeSubset (a b : ValueRange) : Bool :=
  decide (b.lo ≤ a.lo) && decide (a.hi ≤ b.hi)

/-- Modelled from the spec: the result of constraint solving, either
discharged with no runtime cost or deferred with a runtime bounds check
against the target range. -/
inductive Obligation where
  | discharged
  | deferred (check : ValueRange)
  deriving DecidableEq, Repr

/-- Modelled from the spec: classification of a computed result range
against the target refinement: discharged when the result range is a
subset of the target predicate, otherwise deferred with the check to be
inserted before the assignment. -/
def classify (result target : ValueRange) : Obligation :=
  if rangeSubset result target then .discharged else .deferred target

/-- The range of the refined type u8 bounded to 0 through 100. -/
def u8_0_100 : ValueRange := ⟨0, 100⟩

/-- The range of the refined type u16 bounded to 0 through 255. -/
def u16_0_255 : ValueRange := ⟨0, 255⟩

/- ## Contract Verifier (modelled from the spec) -/

/-- Modelled from the spec: the outcome of a guarded call: a normal
result, a recoverable error on the Result channel, or an unrecoverable
contract violation, which is a distinct outcome from the Result
channel. -/
inductive ExecOutcome (α : Type) where
  | normal (result : α)
  | errResult (e : String)
  | contractViolation
  deriving DecidableEq, Repr

/-- Modelled from the spec: a call site that cannot statically discharge
the requires clause of the callee runs the inserted check immediately
before the call; when the check fails the outcome is a contract
violation and the body never runs. -/
def callWithRequires (req : ℚ → Bool) (body : ℚ → ℚ) (x : ℚ) : ExecOutcome ℚ :=
  if req x then .normal (body x) else .contractViolation

/-- One step of the Newton iteration of the documented sqrt example. -/
def newtonStep (x guess : ℚ) : ℚ := (guess + x / guess) / 2

/-- The documented sqrt body after `n` Newton iterations, starting from
half the argument. -/
def sqrtIter (x : ℚ) : Nat → ℚ
  | 0 => x / 2
  | n + 1 => newtonStep x (sqrtIter x n)

/-- Modelled from the spec: the body of the documented sqrt example, ten
Newton iterations over exact rationals in place of f64. -/
def sqrtBody (x : ℚ) : ℚ := sqrtIter x 10

/-- The requires clause of the documented sqrt example: the argument is
non-negative. -/
def sqrtRequires (x : ℚ) : Bool := decide (0 ≤ x)

/-- The ensures clause of the documented sqrt example: the squared
result is within the stated tolerance of the argument. -/
def sqrtEnsures (x r : ℚ) : Bool := decide (|r * r - x| < 1 / 1000000000)

/-- The call-site operations the Lowering pass emits for a guarded
call. -/
inductive CallOp where
  | guardRequires
  | call
  deriving DecidableEq, Repr

/-- Modelled from the spec: when the requires clause is statically
discharged the call is emitted alone, otherwise the runtime check is
inserted immediately before the call. -/
def lowerCallSite (dischargedB : Bool) : List CallOp :=
  if dischargedB then [CallOp.call] else [CallOp.guardRequires, CallOp.call]

/- ## Type interning (modelled from the spec) -/

mutual

/-- Modelled from the spec: the tagged union of types: a primitive kind,
a refined base with a predicate, a composite with an ordered field list,
an interface with methods, and a function type with parameters, return
type and a may-fail flag.  The field and parameter lists are their own
inductives so that structural equality is derivable. -/
inductive Ty where
  | primitive (kind : String)
  | refined (base : Ty) (predicate : String)
  | composite (fields : FieldList)
  | interface (methods : List String)
  | function (params : TyList) (ret : Ty) (fails : Bool)
  deriving DecidableEq, Repr

/-- An ordered list of named fields of a composite type. -/
inductive FieldList where
  | nil
  | cons (name : String) (ty : Ty) (rest : FieldList)
  deriving DecidableEq, Repr

/-- An ordered list of parameter types of a function type. -/
inductive TyList where
  | nil
  | cons (ty : Ty) (rest : TyList)
  deriving DecidableEq, Repr

end

/-- The index of the first structurally equal entry of the table, if
any; the index is the process-wide ID of the interned type. -/
def lookupId : List Ty → Ty → Option Nat
  | [], _ => none
  | u :: rest, t =>
    if u = t then some 0 else (lookupId rest t).map (· + 1)

/-- Modelled from the spec: interning into the process-wide, append-only
type table: a structurally equal entry is reused, otherwise the type is
appended once and receives a fresh ID. -/
def intern (tbl : List Ty) (t : Ty) : List Ty × Nat :=
  match lookupId tbl t with
  | some i => (tbl, i)
  | none => (tbl ++ [t], tbl.length)

/-- A concrete interning table with two distinct primitive types. -/
def c7Tbl : List Ty := [.primitive "u8", .primitive "bool"]

/- ## Theorems: the frontend -/

/-- The word transformation of the source, charAt 0 upper-cased plus
slice 1, agrees with the claim wording, first character upper-cased and
the rest unchanged. -/
theorem capitalizeWord_eq_claimCapitalize : capitalizeWord = claimCapitalize := by
  funext w
  cases w with
  | mk data =>
    cases data with
    | nil => rfl
    | cons c cs => rfl

/-- C8: getComponentName maps null, undefined and the empty string to
null, and every non-empty section path to the concatenation of its
hyphen-separated words, each with its first character upper-cased and
the rest unchanged, followed by the suffix Doc. -/
theorem c8_getComponentName_spec (o : Option String) :
    getComponentName o = claimComponentName o := by
  cases o with
  | none => rfl
  | some s =>
    simp only [getComponentName, claimComponentName, capitalizeWord_eq_claimCapitalize]

/-- Witness for C8 at the documented example section path. -/
theorem c8_witness :
    getComponentName (some "variables-types") = claimComponentName (some "variables-types") :=
  c8_getComponentName_spec (some "variables-types")

/-- Counterexample to C9 as stated: in an environment in which every
dynamic import rejects, loadDocComponent propagates the exception of the
uncaught fallback import instead of setting currentDocComponent. -/
theorem c9_loadDocComponent_throws :
    loadDocComponent brokenEnv (some "introduction") none = .error () := rfl

/-- C9 as amended: whenever the NotFoundPage fallback module itself
loads, loadDocComponent sets currentDocComponent and never propagates an
exception: with a section given it sets the matching content component,
falling back to NotFoundPage when that import fails, and with no section
it defaults to IntroductionDoc with the same fallback. -/
theorem c9_loadDocComponent_total (env : ImportEnv) (r p : Option String) (nf : String)
    (h : env "../../NotFoundPage.vue" = some nf) :
    loadDocComponent env r p = .ok (claimedDocComponent env r p nf) := by
  simp only [loadDocComponent, claimedDocComponent]
  cases ht : truthy (jsOr r p) <;> simp only [ht, if_true, if_false, Bool.false_eq_true]
  · cases hc : env "./content/IntroductionDoc.vue" <;> simp [hc, h]
  · cases hc : env ("./content/" ++ jsInterp (getComponentName (jsOr r p)) ++ ".vue") <;>
      simp [hc, h]

/-- Witness for the amended C9 at a concrete environment and section. -/
theorem c9_loadDocComponent_total_witness :
    fallbackOnlyEnv "../../NotFoundPage.vue" = some "NotFoundPage" ∧
    loadDocComponent fallbackOnlyEnv (some "unknown-section") none =
      .ok (claimedDocComponent fallbackOnlyEnv (some "unknown-section") none "NotFoundPage") :=
  ⟨rfl, c9_loadDocComponent_total fallbackOnlyEnv (some "unknown-section") none "NotFoundPage" rfl⟩

/-- C10: every navigated path that matches none of the six declared
routes resolves to the catch-all route, which renders the NotFoundPage
component. -/
theorem c10_router_fallback (p : String)
    (h : ∀ r ∈ routes, r.pattern ≠ .catchAll → matchesPath r.pattern p = false) :
    resolve p = some notFoundRoute := by
  have h1 := h ⟨.fixed "/", "Home", "HomePage"⟩ (by simp [routes]) (by simp)
  have h2 := h ⟨.fixed "/getting-started", "GettingStarted", "GettingStartedPage"⟩
    (by simp [routes]) (by simp)
  have h3 := h ⟨.fixed "/documentation", "Documentation", "DocumentationPage"⟩
    (by simp [routes]) (by simp)
  have h4 := h ⟨.docSection, "DocSection", "DocSectionPage"⟩ (by simp [routes]) (by simp)
  have h5 := h ⟨.fixed "/cli-reference", "CliReference", "CliReferencePage"⟩
    (by simp [routes]) (by simp)
  have h6 := h ⟨.fixed "/roadmap", "Roadmap", "RoadmapPage"⟩ (by simp [routes]) (by simp)
  simp only [matchesPath] at h1 h2 h3 h4 h5 h6
  simp [resolve, routes, List.find?, h1, h2, h3, h4, h5, h6, matchesPath, notFoundRoute]

/-- Witness for C10 at a concrete path matching no declared route. -/
theorem c10_router_fallback_witness :
    (∀ r ∈ routes, r.pattern ≠ .catchAll → matchesPath r.pattern "/nonexistent" = false) ∧
    resolve "/nonexistent" = some notFoundRoute :=
  ⟨by decide, c10_router_fallback "/nonexistent" (by decide)⟩

/- ## Theorems: the Ownership and Borrow Engine -/

/-- Splitting the dataflow pass at a program point. -/
theorem analyzeFrom_append (l1 l2 : List Stmt) (env : VarEnv) :
    analyzeFrom env (l1 ++ l2) =
      match analyzeFrom env l1 with
      | .ok e => analyzeFrom e l2
      | .error d => .error d := by
  induction l1 generalizing env with
  | nil => rfl
  | cons s rest ih =>
    simp only [List.cons_append, analyzeFrom]
    cases h : step env s with
    | ok e2 => exact ih e2
    | error d => rfl

/-- The pass over an extended program continues from the environment the
prefix reached. -/
theorem analyze_append_ok {pre : List Stmt} {env : VarEnv}
    (hpre : analyze pre = .ok env) (l : List Stmt) :
    analyze (pre ++ l) = analyzeFrom env l := by
  rw [analyze, analyzeFrom_append]
  have hp : analyzeFrom initialEnv pre = .ok env := hpre
  rw [hp]

/-- A successful spawn check requires every captured binding to be Owned
at the spawn site. -/
theorem spawnCheck_mem_owned : ∀ {caps : List String} {env env2 : VarEnv} {x : String},
    spawnCheck env caps = .ok env2 → x ∈ caps → env x = .owned := by
  intro caps
  induction caps with
  | nil => intro env env2 x h hx; cases hx
  | cons c rest ih =>
    intro env env2 x h hx
    cases hc : env c with
    | owned =>
      simp only [spawnCheck, hc] at h
      rcases List.mem_cons.mp hx with rfl | hxr
      · exact hc
      · have hset := ih h hxr
        by_cases hxc : x = c
        · subst hxc; simp [setVar] at hset
        · simpa [setVar, hxc] using hset
    | uninit => simp [spawnCheck, hc] at h
    | borrowedShared n => simp [spawnCheck, hc] at h
    | borrowedMutable => simp [spawnCheck, hc] at h
    | moved b => cases b <;> simp [spawnCheck, hc] at h
    | released => simp [spawnCheck, hc] at h

/-- The spawn check never revives a binding already moved into a task. -/
theorem spawnCheck_preserves_moved : ∀ {caps : List String} {env env2 : VarEnv} {z : String},
    spawnCheck env caps = .ok env2 → env z = .moved true → env2 z = .moved true := by
  intro caps
  induction caps with
  | nil =>
    intro env env2 z h hz
    simp only [spawnCheck, Except.ok.injEq] at h
    rw [← h]; exact hz
  | cons c rest ih =>
    intro env env2 z h hz
    cases hc : env c with
    | owned =>
      simp only [spawnCheck, hc] at h
      refine ih h ?_
      by_cases hzc : z = c
      · subst hzc; simp [setVar]
      · simpa [setVar, hzc] using hz
    | uninit => simp [spawnCheck, hc] at h
    | borrowedShared n => simp [spawnCheck, hc] at h
    | borrowedMutable => simp [spawnCheck, hc] at h
    | moved b => cases b <;> simp [spawnCheck, hc] at h
    | released => simp [spawnCheck, hc] at h

/-- After a successful spawn check every captured binding is Moved into
the task. -/
theorem spawnCheck_sets_moved : ∀ {caps : List String} {env env2 : VarEnv} {x : String},
    spawnCheck env caps = .ok env2 → x ∈ caps → env2 x = .moved true := by
  intro caps
  induction caps with
  | nil => intro env env2 x h hx; cases hx
  | cons c rest ih =>
    intro env env2 x h hx
    cases hc : env c with
    | owned =>
      simp only [spawnCheck, hc] at h
      rcases List.mem_cons.mp hx with rfl | hxr
      · exact spawnCheck_preserves_moved h (by simp [setVar])
      · exact ih h hxr
    | uninit => simp [spawnCheck, hc] at h
    | borrowedShared n => simp [spawnCheck, hc] at h
    | borrowedMutable => simp [spawnCheck, hc] at h
    | moved b => cases b <;> simp [spawnCheck, hc] at h
    | released => simp [spawnCheck, hc] at h

/-- A statement the transfer function accepts never reads a binding that
is Moved or Released. -/
theorem step_ok_not_dead {env env2 : VarEnv} {s : Stmt} {x : String}
    (h : step env s = .ok env2) (hr : readsVar s x = true) :
    isDead (env x) = false := by
  cases s with
  | init y => simp [readsVar] at hr
  | endShared y => simp [readsVar] at hr
  | endMut y => simp [readsVar] at hr
  | release y => simp [readsVar] at hr
  | read y =>
    have hyx : y = x := by simpa [readsVar] using hr
    subst hyx
    cases hy : env y with
    | moved b => cases b <;> simp [step, hy] at h
    | released => simp [step, hy] at h
    | uninit => simp [step, hy] at h
    | owned => simp [isDead, hy]
    | borrowedShared n => simp [isDead, hy]
    | borrowedMutable => simp [isDead, hy]
  | move d srcv =>
    have hyx : srcv = x := by simpa [readsVar] using hr
    subst hyx
    cases hy : env srcv with
    | moved b => cases b <;> simp [step, hy] at h
    | released => simp [step, hy] at h
    | uninit => simp [step, hy] at h
    | owned => simp [isDead, hy]
    | borrowedShared n => simp [isDead, hy]
    | borrowedMutable => simp [isDead, hy]
  | beginShared y =>
    have hyx : y = x := by simpa [readsVar] using hr
    subst hyx
    cases hy : env y with
    | moved b => cases b <;> simp [step, hy] at h
    | released => simp [step, hy] at h
    | uninit => simp [step, hy] at h
    | owned => simp [isDead, hy]
    | borrowedShared n => simp [isDead, hy]
    | borrowedMutable => simp [isDead, hy]
  | beginMut y =>
    have hyx : y = x := by simpa [readsVar] using hr
    subst hyx
    cases hy : env y with
    | moved b => cases b <;> simp [step, hy] at h
    | released => simp [step, hy] at h
    | uninit => simp [step, hy] at h
    | owned => simp [isDead, hy]
    | borrowedShared n => simp [isDead, hy]
    | borrowedMutable => simp [isDead, hy]
  | spawnTask caps =>
    have hx : x ∈ caps := by simpa [readsVar] using hr
    have hsc : spawnCheck env caps = .ok env2 := h
    simp [isDead, spawnCheck_mem_owned hsc hx]

/-- C1: ownership soundness.  At any program point reached with binding
`x` Moved or Released, a program the engine accepts does not read `x`
there, and a program whose next statement reads a value-moved or
released `x` is rejected with the fatal UseAfterMove diagnostic. -/
theorem c1_ownership_soundness (pre post : List Stmt) (s : Stmt) (env : VarEnv) (x : String)
    (hpre : analyze pre = .ok env) :
    ((analyze (pre ++ s :: post)).isOk = true → isDead (env x) = true → readsVar s x = false)
    ∧ ((env x = .moved false ∨ env x = .released) → s = .read x →
        analyze (pre ++ s :: post) = .error .useAfterMove) := by
  have hsplit : analyze (pre ++ s :: post) =
      match step env s with
      | .ok e => analyzeFrom e post
      | .error d => .error d := by
    rw [analyze_append_ok hpre]
    simp only [analyzeFrom]
  constructor
  · intro hok hdead
    cases hstep : step env s with
    | error d => rw [hsplit, hstep] at hok; simp [Except.isOk, Except.toBool] at hok
    | ok e =>
      cases hrv : readsVar s x with
      | false => rfl
      | true =>
        have := step_ok_not_dead hstep hrv
        rw [this] at hdead; cases hdead
  · intro hdead hs
    subst hs
    have hstep : step env (.read x) = .error .useAfterMove := by
      rcases hdead with hm | hm <;> simp [step, hm]
    rw [hsplit, hstep]

/-- Witness for C1: the move-then-use program is rejected with
UseAfterMove. -/
theorem c1_witness :
    analyze (c1Prog.take 2) = .ok c1EnvMid ∧
    analyze c1Prog = .error .useAfterMove :=
  ⟨rfl, (c1_ownership_soundness (c1Prog.take 2) [] (.read "a") c1EnvMid "a" rfl).2
    (Or.inl rfl) rfl⟩

/-- C3: spawn capture safety.  Every binding captured by a spawned task
is Owned at the spawn site and forced to Moved into the task; the
program that stops using it there compiles, and reading it afterwards in
the spawning scope is rejected with the fatal CapturedAfterMove
diagnostic. -/
theorem c3_spawn_capture_safety (pre : List Stmt) (env env2 : VarEnv)
    (caps : List String) (x : String)
    (hpre : analyze pre = .ok env)
    (hspawn : step env (.spawnTask caps) = .ok env2)
    (hx : x ∈ caps) :
    (env x = .owned ∧ env2 x = .moved true)
    ∧ analyze (pre ++ [.spawnTask caps]) = .ok env2
    ∧ analyze (pre ++ [.spawnTask caps, .read x]) = .error .capturedAfterMove := by
  have hsc : spawnCheck env caps = .ok env2 := hspawn
  have hmoved : env2 x = .moved true := spawnCheck_sets_moved hsc hx
  refine ⟨⟨spawnCheck_mem_owned hsc hx, hmoved⟩, ?_, ?_⟩
  · rw [analyze_append_ok hpre]
    simp only [analyzeFrom, hspawn]
  · rw [analyze_append_ok hpre]
    simp only [analyzeFrom, hspawn]
    simp [step, hmoved]

/-- Witness for C3: one binding captured by a task; using it only inside
the task compiles, reading it afterwards is CapturedAfterMove. -/
theorem c3_witness :
    analyze c3Pre = .ok c3EnvOwned ∧
    analyze (c3Pre ++ [.spawnTask ["a"]]) = .ok c3EnvMoved ∧
    analyze (c3Pre ++ [.spawnTask ["a"], .read "a"]) = .error .capturedAfterMove := by
  have h := c3_spawn_capture_safety c3Pre c3EnvOwned c3EnvMoved ["a"] "a" rfl rfl
    (by simp)
  exact ⟨rfl, h.2.1, h.2.2⟩

/-- C4: borrow exclusivity.  While a mutable borrow of `x` is live, any
further access to `x` is rejected with the fatal AliasConflict
diagnostic; while only shared borrows of `x` are live, another shared
borrow stacks, a read is permitted, and a mutable borrow is rejected
with AliasConflict. -/
theorem c4_borrow_exclusivity (pre post : List Stmt) (s : Stmt) (env : VarEnv) (x : String)
    (hpre : analyze pre = .ok env) :
    (env x = .borrowedMutable → directAccess s x = true →
      analyze (pre ++ s :: post) = .error .aliasConflict)
    ∧ (∀ n, env x = .borrowedShared n →
        step env (.beginShared x) = .ok (setVar env x (.borrowedShared (n + 1)))
        ∧ step env (.read x) = .ok env
        ∧ step env (.beginMut x) = .error .aliasConflict) := by
  constructor
  · intro hmut hacc
    have hstep : step env s = .error .aliasConflict := by
      cases s with
      | init y => simp [directAccess] at hacc
      | endShared y => simp [directAccess] at hacc
      | endMut y => simp [directAccess] at hacc
      | release y => simp [directAccess] at hacc
      | spawnTask caps => simp [directAccess] at hacc
      | read y =>
        have hyx : y = x := by simpa [directAccess] using hacc
        subst hyx; simp [step, hmut]
      | move d srcv =>
        have hyx : srcv = x := by simpa [directAccess] using hacc
        subst hyx; simp [step, hmut]
      | beginShared y =>
        have hyx : y = x := by simpa [directAccess] using hacc
        subst hyx; simp [step, hmut]
      | beginMut y =>
        have hyx : y = x := by simpa [directAccess] using hacc
        subst hyx; simp [step, hmut]
    rw [analyze_append_ok hpre]
    simp only [analyzeFrom, hstep]
  · intro n hsh
    refine ⟨?_, ?_, ?_⟩ <;> simp [step, hsh]

/-- Witness for C4: a read through a live mutable borrow is rejected
with AliasConflict. -/
theorem c4_witness :
    analyze (c4Prog.take 2) = .ok c4EnvMid ∧
    analyze c4Prog = .error .aliasConflict :=
  ⟨rfl, (c4_borrow_exclusivity (c4Prog.take 2) [] (.read "a") c4EnvMid "a" rfl).1 rfl rfl⟩

/- ## Theorems: scope lowering -/

/-- Release calls survive concatenation of emitted sequences. -/
theorem releasesOf_append (l1 l2 : List IROp) :
    releasesOf (l1 ++ l2) = releasesOf l1 ++ releasesOf l2 := by
  simp [releasesOf, List.filterMap_append]

/-- A sequence of release calls releases exactly its names. -/
theorem releasesOf_map_release (l : List String) :
    releasesOf (l.map IROp.releaseCall) = l := by
  induction l with
  | nil => rfl
  | cons n rest ih =>
    simp only [List.map_cons, releasesOf, List.filterMap_cons]
    simpa [releasesOf] using ih

/-- Emitting the pending obligations releases them in reverse order. -/
theorem releasesOf_emitReleases (acc : List String) :
    releasesOf (emitReleases acc) = acc.reverse :=
  releasesOf_map_release acc.reverse

/-- A declaration instruction releases nothing. -/
theorem releasesOf_declare (n : String) (ops : List IROp) :
    releasesOf (IROp.declare n :: ops) = releasesOf ops := by
  simp [releasesOf, List.filterMap_cons]

/-- An ordinary instruction releases nothing. -/
theorem releasesOf_stmtOp (ops : List IROp) :
    releasesOf (IROp.stmt :: ops) = releasesOf ops := by
  simp [releasesOf, List.filterMap_cons]

/-- An exit instruction releases nothing. -/
theorem releasesOf_exitOp (e : ExitKind) :
    releasesOf [IROp.exitOp e] = [] := rfl

/-- Lowering emits, on the explicit exit or the normal fall-through of a
scope body without explicit exits, exactly the pending releases followed
by those of the bindings declared in the body, in reverse order. -/
theorem lowerScope_releases : ∀ (body : List ScopeStmt) (acc : List String),
    noExplicitExit body = true →
    (∀ e : ExitKind,
      releasesOf (lowerScope (body ++ [.exitVia e]) acc) = (acc ++ rbNames body).reverse)
    ∧ releasesOf (lowerScope body acc) = (acc ++ rbNames body).reverse := by
  intro body
  induction body with
  | nil =>
    intro acc _
    refine ⟨fun e => ?_, ?_⟩
    · simp [lowerScope, releasesOf_append, releasesOf_emitReleases, releasesOf_exitOp,
        rbNames]
    · simp [lowerScope, releasesOf_append, releasesOf_emitReleases, releasesOf_exitOp,
        rbNames]
  | cons s rest ih =>
    intro acc hne
    cases s with
    | decl b =>
      have hne2 : noExplicitExit rest = true := by simpa [noExplicitExit] using hne
      refine ⟨fun e => ?_, ?_⟩
      · simp only [List.cons_append, lowerScope, releasesOf_declare, List.append_eq]
        rw [(ih (if b.resourceBound then acc ++ [b.name] else acc) hne2).1 e]
        cases hrb : b.resourceBound <;>
          simp [rbNames, List.filterMap_cons, hrb, List.append_assoc]
      · simp only [lowerScope, releasesOf_declare, List.append_eq]
        rw [(ih (if b.resourceBound then acc ++ [b.name] else acc) hne2).2]
        cases hrb : b.resourceBound <;>
          simp [rbNames, List.filterMap_cons, hrb, List.append_assoc]
    | work =>
      have hne2 : noExplicitExit rest = true := by simpa [noExplicitExit] using hne
      refine ⟨fun e => ?_, ?_⟩
      · simp only [List.cons_append, lowerScope, releasesOf_stmtOp, List.append_eq]
        rw [(ih acc hne2).1 e]
        simp [rbNames, List.filterMap_cons]
      · simp only [lowerScope, releasesOf_stmtOp, List.append_eq]
        rw [(ih acc hne2).2]
        simp [rbNames, List.filterMap_cons]
    | exitVia e => simp [noExplicitExit] at hne

/-- C2: release completeness.  For a scope body of declarations, every
exit kind, explicit early return, break, error propagation, or the
normal fall-through, emits the release calls of exactly the
resource-bound bindings of the scope, in reverse declaration order, and
each such binding is released exactly once. -/
theorem c2_release_completeness (body : List ScopeStmt) (e : ExitKind)
    (hne : noExplicitExit body = true) :
    releasesOf (lowerScope (body ++ [.exitVia e]) []) = (rbNames body).reverse
    ∧ releasesOf (lowerScope body []) = (rbNames body).reverse
    ∧ ((rbNames body).Nodup → ∀ n ∈ rbNames body,
        (releasesOf (lowerScope (body ++ [.exitVia e]) [])).count n = 1) := by
  have h := lowerScope_releases body [] hne
  have h1 : releasesOf (lowerScope (body ++ [.exitVia e]) []) = (rbNames body).reverse := by
    simpa using h.1 e
  have h2 : releasesOf (lowerScope body []) = (rbNames body).reverse := by
    simpa using h.2
  refine ⟨h1, h2, ?_⟩
  intro hnd n hn
  rw [h1, List.count_reverse]
  exact List.count_eq_one_of_mem hnd hn

/-- Witness for C2: bindings a then b released as b then a on an early
return. -/
theorem c2_witness :
    noExplicitExit c2Body = true ∧
    releasesOf (lowerScope (c2Body ++ [.exitVia .earlyReturn]) []) = ["b", "a"] :=
  ⟨rfl, (c2_release_completeness c2Body .earlyReturn rfl).1⟩

/- ## Theorems: the Refinement Resolver -/

/-- C5: refinement discharge precision.  The interval sum of two values
of u8 bounded to 100 is the range 0 through 200, classified Deferred
against the target u8 range 0 through 100 and Discharged against the
target u16 range 0 through 255; in general an obligation is Discharged
exactly when the result range is a subset of the target, Deferred with
the target check otherwise, and a Discharged obligation really is a
semantic containment of values. -/
theorem c5_refinement_discharge :
    rangeAdd u8_0_100 u8_0_100 = ⟨0, 200⟩
    ∧ classify (rangeAdd u8_0_100 u8_0_100) u8_0_100 = .deferred u8_0_100
    ∧ classify (rangeAdd u8_0_100 u8_0_100) u16_0_255 = .discharged
    ∧ (∀ r t : ValueRange, classify r t = .discharged ↔ rangeSubset r t = true)
    ∧ (∀ r t : ValueRange, rangeSubset r t = false → classify r t = .deferred t)
    ∧ (∀ r t : ValueRange, classify r t = .discharged →
        ∀ v : Int, r.lo ≤ v → v ≤ r.hi → t.lo ≤ v ∧ v ≤ t.hi) := by
  have hgen : ∀ r t : ValueRange, classify r t = .discharged ↔ rangeSubset r t = true := by
    intro r t
    constructor
    · intro h
      cases hb : rangeSubset r t with
      | false => simp [classify, hb] at h
      | true => rfl
    · intro h
      simp [classify, h]
  refine ⟨rfl, by decide, by decide, hgen, ?_, ?_⟩
  · intro r t h
    simp [classify, h]
  · intro r t h v hlo hhi
    have hs := (hgen r t).mp h
    simp only [rangeSubset, Bool.and_eq_true, decide_eq_true_eq] at hs
    exact ⟨le_trans hs.1 hlo, le_trans hhi hs.2⟩

/-- Witness for C5: the discharged obligation for the sum range against
the u16 target really bounds a sample value. -/
theorem c5_witness :
    u16_0_255.lo ≤ (150 : Int) ∧ (150 : Int) ≤ u16_0_255.hi :=
  c5_refinement_discharge.2.2.2.2.2 (rangeAdd u8_0_100 u8_0_100) u16_0_255
    (by decide) 150 (by decide) (by decide)

/- ## Theorems: the Contract Verifier -/

/-- C6: contract runtime behaviour.  Calling the documented sqrt with a
negative argument violates the requires check before any body runs, for
every possible body; calling it with four runs normally and its ensures
clause holds within the stated tolerance; in general a failing requires
check at a call site is a contract violation, never a Result error, and
an undischarged requires clause lowers to a guard immediately before the
call. -/
theorem c6_contract_runtime :
    (∀ body : ℚ → ℚ, callWithRequires sqrtRequires body (-1) = .contractViolation)
    ∧ callWithRequires sqrtRequires sqrtBody 4 = .normal (sqrtBody 4)
    ∧ sqrtEnsures 4 (sqrtBody 4) = true
    ∧ (∀ (req : ℚ → Bool) (body : ℚ → ℚ) (x : ℚ),
        req x = false → callWithRequires req body x = .contractViolation)
    ∧ (∀ (req : ℚ → Bool) (body : ℚ → ℚ) (x : ℚ) (e : String),
        callWithRequires req body x ≠ .errResult e)
    ∧ lowerCallSite false = [CallOp.guardRequires, CallOp.call] := by
  refine ⟨?_, ?_, ?_, ?_, ?_, rfl⟩
  · intro body
    have h : sqrtRequires (-1) = false := by norm_num [sqrtRequires]
    simp [callWithRequires, h]
  · have h : sqrtRequires 4 = true := by norm_num [sqrtRequires]
    simp [callWithRequires, h]
  · norm_num [sqrtEnsures, sqrtBody, sqrtIter, newtonStep]
  · intro req body x h
    simp [callWithRequires, h]
  · intro req body x e
    simp only [callWithRequires]
    split <;> simp

/-- Witness for C6: a concrete failing requires check is a contract
violation. -/
theorem c6_witness :
    ((fun _ : ℚ => false) (0 : ℚ)) = false ∧
    callWithRequires (fun _ => false) id 0 = .contractViolation :=
  ⟨rfl, c6_contract_runtime.2.2.2.1 (fun _ => false) id 0 rfl⟩

/- ## Theorems: type interning -/

/-- A successful table lookup returns the index of a structurally equal
entry. -/
theorem lookupId_get : ∀ {tbl : List Ty} {t : Ty} {i : Nat},
    lookupId tbl t = some i → tbl.get? i = some t := by
  intro tbl
  induction tbl with
  | nil => intro t i h; simp [lookupId] at h
  | cons u rest ih =>
    intro t i h
    by_cases hu : u = t
    · simp only [lookupId, if_pos hu] at h
      cases h
      simp [hu]
    · simp only [lookupId, if_neg hu] at h
      rcases Option.map_eq_some'.mp h with ⟨j, hj, rfl⟩
      simpa [List.get?] using ih hj

/-- Every member of the table has an ID. -/
theorem lookupId_isSome_of_mem : ∀ {tbl : List Ty} {t : Ty},
    t ∈ tbl → ∃ i, lookupId tbl t = some i := by
  intro tbl
  induction tbl with
  | nil => intro t h; cases h
  | cons u rest ih =>
    intro t h
    by_cases hu : u = t
    · exact ⟨0, by simp [lookupId, hu]⟩
    · rcases List.mem_cons.mp h with rfl | hm
      · exact absurd rfl hu
      · rcases ih hm with ⟨j, hj⟩
        exact ⟨j + 1, by simp [lookupId, hu, hj]⟩

/-- Interning a type absent from the table gives it the next ID. -/
theorem lookupId_append_none : ∀ {tbl : List Ty} {t : Ty},
    lookupId tbl t = none → lookupId (tbl ++ [t]) t = some tbl.length := by
  intro tbl
  induction tbl with
  | nil => intro t _; simp [lookupId]
  | cons u rest ih =>
    intro t h
    simp only [lookupId] at h
    by_cases hu : u = t
    · simp [hu] at h
    · simp only [if_neg hu] at h
      have hr : lookupId rest t = none := by
        cases hx : lookupId rest t with
        | none => rfl
        | some j => simp [hx] at h
      simp [lookupId, hu, ih hr]

/-- C7: type-interning stability.  Interning is idempotent, the table
only ever grows by appending, and for interned types equality of IDs is
equivalent to structural equality. -/
theorem c7_type_interning :
    (∀ (tbl : List Ty) (t : Ty), intern (intern tbl t).1 t = intern tbl t)
    ∧ (∀ (tbl : List Ty) (t : Ty), ∃ ext, (intern tbl t).1 = tbl ++ ext)
    ∧ (∀ (tbl : List Ty) (t1 t2 : Ty), t1 ∈ tbl → t2 ∈ tbl →
        ((intern tbl t1).2 = (intern tbl t2).2 ↔ t1 = t2)) := by
  refine ⟨?_, ?_, ?_⟩
  · intro tbl t
    cases h : lookupId tbl t with
    | some i => simp [intern, h]
    | none => simp [intern, h, lookupId_append_none h]
  · intro tbl t
    cases h : lookupId tbl t with
    | some i => exact ⟨[], by simp [intern, h]⟩
    | none => exact ⟨[t], by simp [intern, h]⟩
  · intro tbl t1 t2 h1 h2
    obtain ⟨i1, hi1⟩ := lookupId_isSome_of_mem h1
    obtain ⟨i2, hi2⟩ := lookupId_isSome_of_mem h2
    simp only [intern, hi1, hi2]
    constructor
    · intro h
      have g1 := lookupId_get hi1
      have g2 := lookupId_get hi2
      rw [h, g2] at g1
      injection g1 with g
      exact g.symm
    · rintro rfl
      rw [hi1] at hi2
      injection hi2

/-- Witness for C7: two distinct interned primitives have distinct IDs
exactly because they differ structurally. -/
theorem c7_witness :
    Ty.primitive "u8" ∈ c7Tbl ∧ Ty.primitive "bool" ∈ c7Tbl ∧
    ((intern c7Tbl (.primitive "u8")).2 = (intern c7Tbl (.primitive "bool")).2 ↔
      Ty.primitive "u8" = Ty.primitive "bool") :=
  ⟨by decide, by decide, c7_type_interning.2.2 c7Tbl _ _ (by decide) (by decide)⟩

end Asbel

